import Mathlib

set_option autoImplicit false

namespace Flux

/-- Str models a Go string as its list of runes. -/
abbrev Str := List Char

/-- goTrimPrefix models strings.TrimPrefix: drop p when it prefixes s, else return s unchanged. -/
def goTrimPrefix (s p : Str) : Str := if p.isPrefixOf s then s.drop p.length else s

/-- goTrimSuffix models strings.TrimSuffix: drop p when it suffixes s, else return s unchanged. -/
def goTrimSuffix (s p : Str) : Str :=
  if p.isSuffixOf s then s.take (s.length - p.length) else s

/-- isUpperAZ models the Go test r >= 'A' && r <= 'Z' used at upper-case boundaries. -/
def isUpperAZ (c : Char) : Bool := 'A' ≤ c && c ≤ 'Z'

/-- goToLower models unicode.ToLower on the ASCII range the naming convention uses. -/
def goToLower (c : Char) : Char :=
  if 'A' ≤ c && c ≤ 'Z' then Char.ofNat (c.toNat + 32) else c

/-- goToUpper models the character action of strings.ToUpper on the ASCII range. -/
def goToUpper (c : Char) : Char :=
  if 'a' ≤ c && c ≤ 'z' then Char.ofNat (c.toNat - 32) else c

/-- lowerStr models strings.ToLower on ASCII strings. -/
def lowerStr (s : Str) : Str := s.map goToLower

/-- upperStr models strings.ToUpper on ASCII strings. -/
def upperStr (s : Str) : Str := s.map goToUpper

/-- goContains models strings.Contains: sub occurs somewhere inside s. -/
def goContains (s sub : Str) : Bool :=
  (List.range (s.length + 1)).any (fun i => sub.isPrefixOf (s.drop i))

/-- httpVerbs is the fixed ordered verb list scanned by parseRouteFromMethodName. -/
def httpVerbs : List Str :=
  ["Get".data, "Post".data, "Put".data, "Delete".data, "Patch".data, "Options".data, "Head".data]

/-- stripVerb models the verb-scanning loop of parseRouteFromMethodName: the first
verb of the list that prefixes the action becomes the upper-cased HTTP method and is
stripped; if none matches the method defaults to GET and nothing is stripped. -/
def stripVerb : List Str → Str → Str × Str
  | [], action => ("GET".data, action)
  | v :: vs, action =>
      if v.isPrefixOf action then (upperStr v, action.drop v.length)
      else stripVerb vs action

/-- hyphenLowerTail models the path strings.Builder loop of parseRouteFromMethodName
at positions i > 0: a hyphen is inserted before each upper-case rune, and every rune is
lower-cased. -/
def hyphenLowerTail : Str → Str
  | [] => []
  | c :: rest => (if isUpperAZ c then ['-', goToLower c] else [goToLower c]) ++ hyphenLowerTail rest

/-- hyphenLower models the whole path strings.Builder loop (position 0 never gets a hyphen). -/
def hyphenLower : Str → Str
  | [] => []
  | c :: rest => goToLower c :: hyphenLowerTail rest

/-- RouteInfo mirrors the Go struct RouteInfo of pkg/flux/app.go. -/
structure RouteInfo where
  HTTPMethod : Str
  Path : Str
  deriving DecidableEq, Repr

/-- parseRouteAux is the tail of parseRouteFromMethodName after the verb scan: p is the
pair (httpMethod, actionName); the strings.Builder result hyphenLower p.2 is the
actionPath of the Go code. -/
def parseRouteAux (p : Str × Str) (basePath : Str) : RouteInfo :=
  if p.2 ≠ [] then
    if hyphenLower p.2 = "index".data ∨ hyphenLower p.2 = [] then
      ⟨p.1, basePath⟩
    else if goContains (hyphenLower p.2) "by-id".data then
      ⟨p.1, basePath ++ "/:id".data⟩
    else
      ⟨p.1, basePath ++ '/' :: hyphenLower p.2⟩
  else
    ⟨p.1, basePath⟩

/-- parseRouteFromMethodName is the shallow embedding of the Go function of the same
name in pkg/flux/app.go: trim the Handle prefix, scan the verb list, then build the path. -/
def parseRouteFromMethodName (methodName basePath : Str) : RouteInfo :=
  parseRouteAux (stripVerb httpVerbs (goTrimPrefix methodName "Handle".data)) basePath

/-- specSplitCamelAux scans the string keeping the current segment; a new segment is
opened at every upper-case rune. -/
def specSplitCamelAux (cur : Str) : Str → List Str
  | [] => [cur]
  | c :: rest =>
      if isUpperAZ c then cur :: specSplitCamelAux [c] rest
      else specSplitCamelAux (cur ++ [c]) rest

/-- specSplitCamel splits a string at every upper-case boundary except position 0
(spec section 4.1, step 3). -/
def specSplitCamel : Str → List Str
  | [] => []
  | c :: rest => specSplitCamelAux [c] rest

/-- joinHyphen places a hyphen between consecutive segments. -/
def joinHyphen : List Str → Str
  | [] => []
  | [s] => s
  | s :: rest => s ++ '-' :: joinHyphen rest

/-- specFragment lower-cases the word segments and hyphen-joins them, the spec's action
path fragment (spec section 4.1, step 3). -/
def specFragment (action : Str) : Str := joinHyphen ((specSplitCamel action).map lowerStr)

/-- specStripVerb scans the spec's ordered verb list Get, Post, Put, Delete, Patch,
Options, Head in declaration order; the first verb that prefixes the string is the
upper-cased method and is stripped; default GET with nothing stripped (spec step 2). -/
def specStripVerb (rest : Str) : Str × Str :=
  if ("Get".data).isPrefixOf rest then ("GET".data, rest.drop 3)
  else if ("Post".data).isPrefixOf rest then ("POST".data, rest.drop 4)
  else if ("Put".data).isPrefixOf rest then ("PUT".data, rest.drop 3)
  else if ("Delete".data).isPrefixOf rest then ("DELETE".data, rest.drop 6)
  else if ("Patch".data).isPrefixOf rest then ("PATCH".data, rest.drop 5)
  else if ("Options".data).isPrefixOf rest then ("OPTIONS".data, rest.drop 7)
  else if ("Head".data).isPrefixOf rest then ("HEAD".data, rest.drop 4)
  else ("GET".data, rest)

/-- specRouteAux applies the spec's steps 3 and 4 to the (method, action) pair. -/
def specRouteAux (p : Str × Str) (basePath : Str) : RouteInfo :=
  if specFragment p.2 = [] ∨ specFragment p.2 = "index".data then ⟨p.1, basePath⟩
  else if goContains (specFragment p.2) "by-id".data then ⟨p.1, basePath ++ "/:id".data⟩
  else ⟨p.1, basePath ++ '/' :: specFragment p.2⟩

/-- specRoute is the spec's reference algorithm (section 4.1, steps 2 to 4) applied to
the part of the identifier after the mandatory Handle and to the base path. -/
def specRoute (rest basePath : Str) : RouteInfo :=
  specRouteAux (specStripVerb rest) basePath

theorem specSplitCamelAux_ne_nil (rest : Str) : ∀ cur, specSplitCamelAux cur rest ≠ [] := by
  induction rest with
  | nil => intro cur; simp [specSplitCamelAux]
  | cons c rest ih =>
      intro cur
      by_cases h : isUpperAZ c = true
      · simp [specSplitCamelAux, h]
      · simp [specSplitCamelAux, h]
        exact ih (cur ++ [c])

theorem joinHyphen_cons (s : Str) (l : List Str) (h : l ≠ []) :
    joinHyphen (s :: l) = s ++ '-' :: joinHyphen l := by
  cases l with
  | nil => exact absurd rfl h
  | cons t r => rfl

theorem joinHyphen_splitAux (rest : Str) : ∀ cur,
    joinHyphen ((specSplitCamelAux cur rest).map lowerStr) = lowerStr cur ++ hyphenLowerTail rest := by
  induction rest with
  | nil => intro cur; simp [specSplitCamelAux, joinHyphen, hyphenLowerTail]
  | cons c rest ih =>
      intro cur
      by_cases h : isUpperAZ c = true
      · have hne : (specSplitCamelAux [c] rest).map lowerStr ≠ [] := by
          simp [specSplitCamelAux_ne_nil rest [c]]
        simp only [specSplitCamelAux, h, if_pos, List.map_cons]
        rw [joinHyphen_cons _ _ hne, ih [c]]
        simp [hyphenLowerTail, h, lowerStr]
      · simp only [specSplitCamelAux, h, if_neg, Bool.false_eq_true, not_false_iff]
        rw [ih (cur ++ [c])]
        simp [hyphenLowerTail, h, lowerStr]

theorem specFragment_eq_hyphenLower (action : Str) : specFragment action = hyphenLower action := by
  cases action with
  | nil => rfl
  | cons c rest =>
      unfold specFragment specSplitCamel hyphenLower
      rw [joinHyphen_splitAux rest [c]]
      rfl

theorem stripVerb_eq_specStripVerb (action : Str) :
    stripVerb httpVerbs action = specStripVerb action := by
  unfold httpVerbs specStripVerb
  simp only [stripVerb]
  split_ifs <;> rfl

theorem goTrimPrefix_handle (rest : Str) :
    goTrimPrefix ("Handle".data ++ rest) "Handle".data = rest := by
  unfold goTrimPrefix
  rw [if_pos]
  · exact List.drop_left _ _
  · exact List.isPrefixOf_iff_prefix.mpr (List.prefix_append _ _)

theorem parseRouteAux_eq_specRouteAux (p : Str × Str) (basePath : Str) :
    parseRouteAux p basePath = specRouteAux p basePath := by
  unfold parseRouteAux specRouteAux
  rw [specFragment_eq_hyphenLower]
  by_cases h : p.2 = []
  · simp [h, hyphenLower]
  · by_cases h1 : hyphenLower p.2 = "index".data
    · simp [h, h1]
    · by_cases h2 : hyphenLower p.2 = []
      · simp [h, h1, h2]
      · simp [h, h1, h2]

/-- C1: on every identifier of the form Handle plus a remainder, parseRouteFromMethodName
computes exactly the spec's reference algorithm (first-matching verb upper-cased and
stripped with GET as default, camel split, lower-case hyphen join, index/by-id special
cases), and the concrete check HandleGetUserById with base /user gives (GET, /user/:id). -/
theorem parseRoute_matches_spec :
    (∀ rest basePath : Str,
      parseRouteFromMethodName ("Handle".data ++ rest) basePath = specRoute rest basePath)
    ∧ parseRouteFromMethodName "HandleGetUserById".data "/user".data
        = ⟨"GET".data, "/user/:id".data⟩ := by
  constructor
  · intro rest basePath
    unfold parseRouteFromMethodName specRoute
    rw [goTrimPrefix_handle, stripVerb_eq_specStripVerb, parseRouteAux_eq_specRouteAux]
  · rfl

theorem specStripVerb_method_mem (rest : Str) :
    (specStripVerb rest).1 ∈
      ["GET".data, "POST".data, "PUT".data, "PATCH".data, "DELETE".data,
       "OPTIONS".data, "HEAD".data] := by
  unfold specStripVerb
  split_ifs <;> simp

theorem parseRouteAux_method (p : Str × Str) (basePath : Str) :
    (parseRouteAux p basePath).HTTPMethod = p.1 := by
  unfold parseRouteAux
  split_ifs <;> rfl

theorem parseRouteAux_path (p : Str × Str) (basePath : Str) :
    basePath <+: (parseRouteAux p basePath).Path := by
  unfold parseRouteAux
  split_ifs <;> simp [List.prefix_append]

/-- C9: every route descriptor produced by parseRouteFromMethodName carries a method
from the fixed verb set and a path that begins with the supplied base path. -/
theorem parseRoute_invariants : ∀ methodName basePath : Str,
    (parseRouteFromMethodName methodName basePath).HTTPMethod ∈
      ["GET".data, "POST".data, "PUT".data, "PATCH".data, "DELETE".data,
       "OPTIONS".data, "HEAD".data]
    ∧ basePath <+: (parseRouteFromMethodName methodName basePath).Path := by
  intro methodName basePath
  unfold parseRouteFromMethodName
  rw [stripVerb_eq_specStripVerb]
  exact ⟨by rw [parseRouteAux_method]; exact specStripVerb_method_mem _,
    parseRouteAux_path _ _⟩

/-- applyChainRev models the LIFO wrapping loop of Controller.registerRoute:
chain := terminal; for i := len(mw)-1 down to 0 { chain = mw[i](chain) }. Its list
argument is the middleware list already reversed, walked left to right. -/
def applyChainRev {H : Type} : List (H → H) → H → H
  | [], chain => chain
  | m :: rest, chain => applyChainRev rest (m chain)

/-- composeMiddleware models the middleware chain construction of
Controller.registerRoute: the declared list is walked from its last entry down to its
first, each wrapping the accumulated chain. -/
def composeMiddleware {H : Type} (mws : List (H → H)) (terminal : H) : H :=
  applyChainRev mws.reverse terminal

theorem applyChainRev_append {H : Type} (l1 l2 : List (H → H)) (t : H) :
    applyChainRev (l1 ++ l2) t = applyChainRev l2 (applyChainRev l1 t) := by
  induction l1 generalizing t with
  | nil => rfl
  | cons m rest ih => simp [applyChainRev, ih]

theorem composeMiddleware_cons {H : Type} (m : H → H) (ms : List (H → H)) (t : H) :
    composeMiddleware (m :: ms) t = m (composeMiddleware ms t) := by
  unfold composeMiddleware
  rw [List.reverse_cons, applyChainRev_append]
  rfl

/-- TraceEvent labels the observable events of the spec's ordering test: the before and
after sides of two tracing middleware A and B, and the terminal handler T. -/
inductive TraceEvent where
  | abefore | bbefore | tcall | bafter | aafter
  deriving DecidableEq, Repr

/-- TraceHandler models a handler by the event trace its invocation emits. -/
abbrev TraceHandler := List TraceEvent

/-- mwA is a tracing middleware: it emits A-before, runs its wrapped handler, then emits A-after. -/
def mwA : TraceHandler → TraceHandler := fun h => TraceEvent.abefore :: h ++ [TraceEvent.aafter]

/-- mwB is a tracing middleware: it emits B-before, runs its wrapped handler, then emits B-after. -/
def mwB : TraceHandler → TraceHandler := fun h => TraceEvent.bbefore :: h ++ [TraceEvent.bafter]

/-- terminalT is the terminal handler of the ordering test, emitting the single event T. -/
def terminalT : TraceHandler := [TraceEvent.tcall]

/-- C2: the registerRoute wrapping loop nests the first-declared middleware outermost:
Compose([m1,m2,m3], t) = m1(m2(m3(t))), in general Compose(m :: ms, t) = m(Compose(ms, t)),
and with the tracing middleware [A, B] around terminal T the observable order is
A-before, B-before, T, B-after, A-after. -/
theorem composeMiddleware_onion :
    (∀ (H : Type) (m1 m2 m3 : H → H) (t : H),
        composeMiddleware [m1, m2, m3] t = m1 (m2 (m3 t)))
    ∧ (∀ (H : Type) (m : H → H) (ms : List (H → H)) (t : H),
        composeMiddleware (m :: ms) t = m (composeMiddleware ms t))
    ∧ composeMiddleware [mwA, mwB] terminalT
        = [TraceEvent.abefore, TraceEvent.bbefore, TraceEvent.tcall,
           TraceEvent.bafter, TraceEvent.aafter] := by
  refine ⟨fun H m1 m2 m3 t => rfl, fun H m ms t => composeMiddleware_cons m ms t, rfl⟩

/-- Jv models a Go JSON-representable interface value (the values that reach JSON
responses and detail maps). -/
inductive Jv where
  | str (s : Str)
  | num (n : Int)
  | boolean (b : Bool)
  | null
  | obj (fields : List (Str × Jv))
  | arr (elems : List Jv)

mutual
/-- AppError mirrors the Go struct AppError: Message, StatusCode, Code, Details and the
wrapped Err; the Option on Details models Go's nil map versus allocated map distinction. -/
inductive AppError where
  | mk (Message : Str) (StatusCode : Int) (Code : Str)
      (Details : Option (List (Str × Jv))) (Err : Option GoError)

/-- GoError models a Go error value reaching the error conversion: either a pointer to
an AppError, or any other error identified by its Error() message. -/
inductive GoError where
  | appErr (e : AppError)
  | simple (msg : Str)
end

def AppError.Message : AppError → Str
  | .mk m _ _ _ _ => m

def AppError.StatusCode : AppError → Int
  | .mk _ s _ _ _ => s

def AppError.Code : AppError → Str
  | .mk _ _ c _ _ => c

def AppError.Details : AppError → Option (List (Str × Jv))
  | .mk _ _ _ d _ => d

def AppError.Err : AppError → Option GoError
  | .mk _ _ _ _ e => e

/-- NewAppError mirrors the Go constructor: message, status code, and a freshly
allocated empty Details map. -/
def NewAppError (message : Str) (statusCode : Int) : AppError :=
  .mk message statusCode [] (some []) none

/-- ErrNotFound is the shared sentinel NewAppError("not found", 404). -/
def ErrNotFound : AppError := NewAppError "not found".data 404

/-- ErrInternalError is the shared sentinel NewAppError("internal server error", 500). -/
def ErrInternalError : AppError := NewAppError "internal server error".data 500

/-- ErrValidation is the shared sentinel NewAppError("validation error", 400). -/
def ErrValidation : AppError := NewAppError "validation error".data 400

/-- mapAssign models Go map assignment m[k] = v: replace the binding at an existing
key, else add a new one. -/
def mapAssign (m : List (Str × Jv)) (k : Str) (v : Jv) : List (Str × Jv) :=
  if m.any (fun p => p.1 == k) then m.map (fun p => if p.1 == k then (k, v) else p)
  else m ++ [(k, v)]

/-- withError models (*AppError).WithError: clone := *e; clone.Err = err. The result
pair is (receiver after the call, returned clone); the receiver is untouched because
the shallow copy writes no shared map. -/
def AppError.withError (e : AppError) (err : GoError) : AppError × AppError :=
  (e, .mk e.Message e.StatusCode e.Code e.Details (some err))

/-- withDetails models (*AppError).WithDetails: the clone points at the caller-supplied
map; the receiver keeps its own. -/
def AppError.withDetails (e : AppError) (details : List (Str × Jv)) : AppError × AppError :=
  (e, .mk e.Message e.StatusCode e.Code (some details) e.Err)

/-- withCode models (*AppError).WithCode. -/
def AppError.withCode (e : AppError) (code : Str) : AppError × AppError :=
  (e, .mk e.Message e.StatusCode code e.Details e.Err)

/-- withDetail models (*AppError).WithDetail: clone := *e is a shallow copy, so the
clone shares the receiver's Details map; when that map is non-nil the write
clone.Details[key] = value is visible through the receiver too, and only when it is nil
does the clone get a fresh private map. -/
def AppError.withDetail (e : AppError) (k : Str) (v : Jv) : AppError × AppError :=
  match e.Details with
  | none => (e, .mk e.Message e.StatusCode e.Code (some [(k, v)]) e.Err)
  | some d =>
      (.mk e.Message e.StatusCode e.Code (some (mapAssign d k v)) e.Err,
       .mk e.Message e.StatusCode e.Code (some (mapAssign d k v)) e.Err)

/-- AsAppError mirrors the Go function: a *AppError is returned as is (AppError defines
no Unwrap, so errors.As matches only the value itself); any other error is wrapped as
ErrInternalError.WithError(err). -/
def AsAppError : GoError → AppError
  | .appErr e => e
  | .simple m => (ErrInternalError.withError (.simple m)).2

/-- appErrorJson models encoding/json marshalling of AppError under its struct tags:
message always, code omitted when empty, details omitted when nil or empty, StatusCode
and Err never serialized. -/
def appErrorJson (e : AppError) : Jv :=
  Jv.obj (("message".data, Jv.str e.Message)
    :: ((if e.Code.isEmpty then [] else [("code".data, Jv.str e.Code)])
      ++ (match e.Details with
          | none => []
          | some d => if d.isEmpty then [] else [("details".data, Jv.obj d)])))

/-- contextError models (*Context).Error of pkg/flux/context.go as the produced pair
(HTTP status, JSON body): a *AppError is sent with its StatusCode only when its Code is
non-empty (otherwise with 500); any other error is wrapped into a fresh 500 AppError. -/
def contextError (err : GoError) : Int × Jv :=
  match err with
  | .appErr e => (if e.Code.isEmpty then 500 else e.StatusCode, appErrorJson e)
  | .simple m =>
      (500, appErrorJson ((NewAppError "Internal Server Error".data 500).withError (.simple m)).2)

/-- lookupField returns the field stored under a key of a JSON object. -/
def lookupField (j : Jv) (k : Str) : Option Jv :=
  match j with
  | .obj fields => List.lookup k fields
  | _ => none

/-- C6 counterexample: ErrNotFound has StatusCode 404 but empty Code, so Context.Error
responds with status 500 instead of the error's StatusCode. -/
theorem contextError_not_statusCode :
    (contextError (.appErr ErrNotFound)).1 ≠ ErrNotFound.StatusCode := by
  have h1 : (contextError (.appErr ErrNotFound)).1 = 500 := rfl
  have h2 : ErrNotFound.StatusCode = 404 := rfl
  rw [h1, h2]
  decide

/-- C6 (amended): Context.Error is total and always yields a structured JSON body
carrying the message; the status equals the AppError's StatusCode when its
machine-readable Code is non-empty and is 500 otherwise, in particular for every
non-AppError error. -/
theorem contextError_structured : ∀ err : GoError,
    (∃ s : Str, lookupField (contextError err).2 "message".data = some (Jv.str s))
    ∧ (∀ e : AppError, err = .appErr e →
        (contextError err).1 = if e.Code.isEmpty then 500 else e.StatusCode)
    ∧ (∀ m : Str, err = .simple m → (contextError err).1 = 500) := by
  intro err
  cases err with
  | appErr e =>
      refine ⟨⟨e.Message, ?_⟩, ?_, ?_⟩
      · simp [contextError, appErrorJson, lookupField, List.lookup]
      · intro e2 h
        injection h with h2
        subst h2
        rfl
      · intro m h
        exact GoError.noConfusion h
  | simple m =>
      refine ⟨⟨"Internal Server Error".data, ?_⟩, ?_, ?_⟩
      · simp [contextError, appErrorJson, lookupField, List.lookup, AppError.withError,
          NewAppError, AppError.Message, AppError.StatusCode, AppError.Code,
          AppError.Details, AppError.Err]
      · intro e2 h
        exact GoError.noConfusion h
      · intro m2 h
        rfl

/-- C6 witness: the amended status rule applied at the concrete error ErrNotFound. -/
theorem contextError_structured_witness :
    (contextError (.appErr ErrNotFound)).1
      = if ErrNotFound.Code.isEmpty then 500 else ErrNotFound.StatusCode :=
  (contextError_structured (.appErr ErrNotFound)).2.1 ErrNotFound rfl

/-- C10 counterexample: deriving an enriched error from the shared sentinel ErrNotFound
through WithDetail mutates the sentinel: the receiver after the call differs from the
sentinel's original value (the shared Details map gained the new entry). -/
theorem withDetail_mutates_receiver :
    (ErrNotFound.withDetail "k".data (Jv.str "x".data)).1 ≠ ErrNotFound := by
  intro h
  have h2 := congrArg AppError.Details h
  simp [AppError.withDetail, ErrNotFound, NewAppError, AppError.Details, mapAssign] at h2

/-- C10 (amended): WithError, WithCode and WithDetails return a new AppError and leave
the receiver entirely unchanged; WithDetail leaves the receiver's Message, StatusCode,
Code and Err unchanged and leaves the receiver entirely unchanged when its Details map
is nil, but when the map is non-nil the added entry is visible through the receiver as
well, because the shallow clone shares the map. -/
theorem appError_builders_frame :
    ∀ (e : AppError) (err : GoError) (c k : Str) (d : List (Str × Jv)) (v : Jv),
    (e.withError err).1 = e
    ∧ (e.withCode c).1 = e
    ∧ (e.withDetails d).1 = e
    ∧ (e.withDetail k v).1.Message = e.Message
    ∧ (e.withDetail k v).1.StatusCode = e.StatusCode
    ∧ (e.withDetail k v).1.Code = e.Code
    ∧ (e.withDetail k v).1.Err = e.Err
    ∧ (e.Details = none → (e.withDetail k v).1 = e) := by
  intro e err c k d v
  cases e with
  | mk m s cd dt er =>
      refine ⟨rfl, rfl, rfl, ?_, ?_, ?_, ?_, ?_⟩ <;>
        cases dt <;>
          simp [AppError.withDetail, AppError.Message, AppError.StatusCode,
            AppError.Code, AppError.Details, AppError.Err]

/-- C10 witness: the frame theorem applied at a concrete AppError whose Details map is
nil, discharging the hypothesis of the last clause. -/
theorem appError_builders_frame_witness :
    ((AppError.mk "m".data 400 [] none none).withDetail "k".data Jv.null).1
      = AppError.mk "m".data 400 [] none none :=
  (appError_builders_frame (AppError.mk "m".data 400 [] none none)
    (.simple []) [] "k".data [] Jv.null).2.2.2.2.2.2.2 rfl


/-- Schema mirrors the Go struct Schema of pkg/forge/openapi.go restricted to the
fields generateSchemaFromType populates: Type, Properties, Items,
AdditionalProperties and Required. -/
inductive Schema where
  | mk (type : Str) (properties : List (Str × Schema)) (items : Option Schema)
      (addProps : Option Schema) (required : List Str)

mutual
/-- GoType models a Go reflect.Type descriptor by the kinds generateSchemaFromType
distinguishes; being an inductive tree it is exactly an acyclic type-reference graph. -/
inductive GoType where
  | stringT
  | intT
  | floatT
  | boolT
  | structT (fields : GoFields)
  | sliceT (elem : GoType)
  | mapT (value : GoType)
  | ptrT (elem : GoType)
  | unsupportedT

/-- GoFields models a struct's field list: declared name, json tag, field type. -/
inductive GoFields where
  | nil
  | cons (name : Str) (jsonTag : Str) (ty : GoType) (rest : GoFields)
end

/-- fieldName models the Go key choice: strings.Split(jsonTag, ",")[0], falling back to
the declared field name when that first component is empty. -/
def fieldName (name jsonTag : Str) : Str :=
  if jsonTag.takeWhile (fun c => c != ',') = [] then name
  else jsonTag.takeWhile (fun c => c != ',')

mutual
/-- generateSchemaFromType is the shallow embedding of the Go function of the same name
in pkg/forge/openapi.go; unsupported kinds yield none, as the Go code returns nil. -/
def generateSchemaFromType : GoType → Option Schema
  | .stringT => some (.mk "string".data [] none none [])
  | .intT => some (.mk "integer".data [] none none [])
  | .floatT => some (.mk "number".data [] none none [])
  | .boolT => some (.mk "boolean".data [] none none [])
  | .structT fields =>
      some (.mk "object".data (structProps fields).1 none none (structProps fields).2)
  | .sliceT e => some (.mk "array".data [] (generateSchemaFromType e) none [])
  | .mapT v => some (.mk "object".data [] none (generateSchemaFromType v) [])
  | .ptrT e => generateSchemaFromType e
  | .unsupportedT => none

/-- structProps is the struct-field loop of generateSchemaFromType: skip a json tag
"-", key each field by fieldName, keep the field only when its own schema is non-nil,
and mark it required unless the tag contains omitempty. -/
def structProps : GoFields → List (Str × Schema) × List Str
  | .nil => ([], [])
  | .cons name jsonTag ty rest =>
      if jsonTag = "-".data then structProps rest
      else
        match generateSchemaFromType ty with
        | none => structProps rest
        | some s =>
            ((fieldName name jsonTag, s) :: (structProps rest).1,
             if goContains jsonTag "omitempty".data then (structProps rest).2
             else fieldName name jsonTag :: (structProps rest).2)
end

mutual
/-- generateSchemaFromTypeFuel is the same recursion with an explicit call-depth
budget, modelling the unbounded recursion of the Go code: the outer none is the
budget-exhaustion (non-termination) marker, some r is the Go result r. -/
def generateSchemaFromTypeFuel : Nat → GoType → Option (Option Schema)
  | 0, _ => none
  | _ + 1, .stringT => some (some (.mk "string".data [] none none []))
  | _ + 1, .intT => some (some (.mk "integer".data [] none none []))
  | _ + 1, .floatT => some (some (.mk "number".data [] none none []))
  | _ + 1, .boolT => some (some (.mk "boolean".data [] none none []))
  | n + 1, .structT fields =>
      (structPropsFuel n fields).map (fun pr => some (.mk "object".data pr.1 none none pr.2))
  | n + 1, .sliceT e =>
      (generateSchemaFromTypeFuel n e).map (fun s => some (.mk "array".data [] s none []))
  | n + 1, .mapT v =>
      (generateSchemaFromTypeFuel n v).map (fun s => some (.mk "object".data [] none s []))
  | n + 1, .ptrT e => generateSchemaFromTypeFuel n e
  | _ + 1, .unsupportedT => some none
termination_by n t => (n, sizeOf t)

/-- structPropsFuel is the fuelled struct-field loop: the loop itself consumes no
budget, each recursive schema call runs with the loop's budget. -/
def structPropsFuel (n : Nat) : GoFields → Option (List (Str × Schema) × List Str)
  | .nil => some ([], [])
  | .cons name jsonTag ty rest =>
      if jsonTag = "-".data then structPropsFuel n rest
      else
        match generateSchemaFromTypeFuel n ty with
        | none => none
        | some none => structPropsFuel n rest
        | some (some s) =>
            (structPropsFuel n rest).map (fun pr =>
              ((fieldName name jsonTag, s) :: pr.1,
               if goContains jsonTag "omitempty".data then pr.2
               else fieldName name jsonTag :: pr.2))
termination_by fs => (n, sizeOf fs)
end

mutual
/-- depthGoType is the nesting depth of a type descriptor, the call depth the schema
recursion needs on it. -/
def depthGoType : GoType → Nat
  | .structT fs => depthGoFields fs + 1
  | .sliceT e => depthGoType e + 1
  | .mapT v => depthGoType v + 1
  | .ptrT e => depthGoType e + 1
  | _ => 1

/-- depthGoFields is the largest depth among the types of a field list. -/
def depthGoFields : GoFields → Nat
  | .nil => 0
  | .cons _ _ ty rest => max (depthGoType ty) (depthGoFields rest)
end

/-- fieldsLen counts the entries of a field list. -/
def fieldsLen : GoFields → Nat
  | .nil => 0
  | .cons _ _ _ rest => fieldsLen rest + 1

theorem depthGoType_pos (t : GoType) : 1 ≤ depthGoType t := by
  cases t <;> simp [depthGoType]

theorem fuel_adequate : ∀ n : Nat,
    (∀ t : GoType, depthGoType t ≤ n →
      generateSchemaFromTypeFuel n t = some (generateSchemaFromType t))
    ∧ (∀ fs : GoFields, depthGoFields fs ≤ n →
      structPropsFuel n fs = some (structProps fs)) := by
  intro n
  induction n with
  | zero =>
      constructor
      · intro t h
        exact absurd (le_trans (depthGoType_pos t) h) (by decide)
      · intro fs h
        cases fs with
        | nil => simp [structPropsFuel, structProps]
        | cons name tag ty rest =>
            exfalso
            have h1 : depthGoType ty ≤ 0 := le_trans (le_max_left _ _) h
            exact absurd (le_trans (depthGoType_pos ty) h1) (by decide)
  | succ n ih =>
      have part1 : ∀ t : GoType, depthGoType t ≤ n + 1 →
          generateSchemaFromTypeFuel (n + 1) t = some (generateSchemaFromType t) := by
        intro t h
        cases t with
        | stringT => simp [generateSchemaFromTypeFuel, generateSchemaFromType]
        | intT => simp [generateSchemaFromTypeFuel, generateSchemaFromType]
        | floatT => simp [generateSchemaFromTypeFuel, generateSchemaFromType]
        | boolT => simp [generateSchemaFromTypeFuel, generateSchemaFromType]
        | unsupportedT => simp [generateSchemaFromTypeFuel, generateSchemaFromType]
        | structT fs =>
            have hf : depthGoFields fs ≤ n := by
              simp [depthGoType] at h
              omega
            simp [generateSchemaFromTypeFuel, generateSchemaFromType, ih.2 fs hf]
        | sliceT e =>
            have he : depthGoType e ≤ n := by
              simp [depthGoType] at h
              omega
            simp [generateSchemaFromTypeFuel, generateSchemaFromType, ih.1 e he]
        | mapT v =>
            have hv : depthGoType v ≤ n := by
              simp [depthGoType] at h
              omega
            simp [generateSchemaFromTypeFuel, generateSchemaFromType, ih.1 v hv]
        | ptrT e =>
            have he : depthGoType e ≤ n := by
              simp [depthGoType] at h
              omega
            simp [generateSchemaFromTypeFuel, generateSchemaFromType, ih.1 e he]
      refine ⟨part1, ?_⟩
      have inner : ∀ (k : Nat) (fs : GoFields), fieldsLen fs ≤ k → depthGoFields fs ≤ n + 1 →
          structPropsFuel (n + 1) fs = some (structProps fs) := by
        intro k
        induction k with
        | zero =>
            intro fs hk h
            cases fs with
            | nil => simp [structPropsFuel, structProps]
            | cons name tag ty rest => simp [fieldsLen] at hk
        | succ k ihk =>
            intro fs hk h
            cases fs with
            | nil => simp [structPropsFuel, structProps]
            | cons name tag ty rest =>
                have hk2 : fieldsLen rest ≤ k := by
                  simp [fieldsLen] at hk
                  omega
                have hty : depthGoType ty ≤ n + 1 := le_trans (le_max_left _ _) h
                have hrest : depthGoFields rest ≤ n + 1 := le_trans (le_max_right _ _) h
                by_cases htag : tag = "-".data
                · simp [structPropsFuel, structProps, htag, ihk rest hk2 hrest]
                · cases hg : generateSchemaFromType ty with
                  | none =>
                      simp [structPropsFuel, structProps, htag, part1 ty hty, hg,
                        ihk rest hk2 hrest]
                  | some s =>
                      simp [structPropsFuel, structProps, htag, part1 ty hty, hg,
                        ihk rest hk2 hrest]
      intro fs h
      exact inner (fieldsLen fs) fs (le_refl _) h

/-- C8: the schema recursion halts on every type descriptor; since descriptors are
inductive trees, every representable type-reference graph is acyclic, which is exactly
the claim's precondition. With call budget depthGoType t the fuelled recursion returns
the total function's result rather than the exhaustion marker. -/
theorem generateSchema_terminates : ∀ t : GoType,
    generateSchemaFromTypeFuel (depthGoType t) t = some (generateSchemaFromType t) :=
  fun t => (fuel_adequate (depthGoType t)).1 t (le_refl _)

/-- flatUntagged is the descriptor of the flat struct { Name string; Age int } with no
json tags at all (so in particular no omission markers). -/
def flatUntagged : GoType :=
  .structT (.cons "Name".data [] .stringT (.cons "Age".data [] .intT .nil))

/-- schemaRequired projects the required list out of an optional schema. -/
def schemaRequired : Option Schema → List Str
  | some (.mk _ _ _ _ req) => req
  | none => []

/-- schemaPropKeys projects the property keys out of an optional schema. -/
def schemaPropKeys : Option Schema → List Str
  | some (.mk _ props _ _ _) => props.map (fun p => p.1)
  | none => []


/-- flatTagged is the flat struct { Name string; Age int } whose fields carry the
serialization names name and age through json tags (still no omission markers). -/
def flatTagged : GoType :=
  .structT (.cons "Name".data "name".data .stringT (.cons "Age".data "age".data .intT .nil))

/-- C5 counterexample: on the untagged flat struct { Name string; Age int } the
generated required list is [Name, Age] (the declared field names), not the claim's
lower-case [name, age]; json tags, not field names, are what produce lower-case keys. -/
theorem schema_flat_untagged_not_lowercase :
    schemaRequired (generateSchemaFromType flatUntagged) ≠ ["name".data, "age".data] := by
  decide

/-- C5 (amended): the untagged flat struct { Name string; Age int } yields an object
schema keyed by the declared names, properties {Name: string, Age: integer} with
required [Name, Age]; with serialization names name and age the schema is keyed by
those, properties {name: string, age: integer} with required [name, age]; an omitempty
marker keeps a field in properties but out of required; and in general an untagged
field falls back to its declared name and is required. -/
theorem generateSchema_flat :
    generateSchemaFromType flatUntagged
      = some (.mk "object".data
          [("Name".data, .mk "string".data [] none none []),
           ("Age".data, .mk "integer".data [] none none [])]
          none none ["Name".data, "Age".data])
    ∧ generateSchemaFromType flatTagged
      = some (.mk "object".data
          [("name".data, .mk "string".data [] none none []),
           ("age".data, .mk "integer".data [] none none [])]
          none none ["name".data, "age".data])
    ∧ generateSchemaFromType (.structT (.cons "Name".data "name,omitempty".data .stringT .nil))
      = some (.mk "object".data
          [("name".data, .mk "string".data [] none none [])] none none [])
    ∧ (∀ (name : Str) (ty : GoType) (s : Schema), generateSchemaFromType ty = some s →
        structProps (.cons name [] ty .nil) = ([(name, s)], [name])) := by
  refine ⟨rfl, rfl, rfl, ?_⟩
  intro name ty s h
  simp [structProps, fieldName, goContains, h]

/-- C5 witness: the fallback clause applied to a single untagged string field. -/
theorem generateSchema_flat_witness :
    structProps (.cons "X".data [] .stringT .nil)
      = ([("X".data, .mk "string".data [] none none [])], ["X".data]) :=
  generateSchema_flat.2.2.2 "X".data .stringT (.mk "string".data [] none none []) rfl


/-- spaceCamelTail models the description strings.Builder loop of descriptionFromMethod
at positions i > 0: a space is inserted before each upper-case rune, runes kept as is. -/
def spaceCamelTail : Str → Str
  | [] => []
  | c :: rest => (if isUpperAZ c then [' ', c] else [c]) ++ spaceCamelTail rest

/-- spaceCamel models the whole description builder loop (no space at position 0). -/
def spaceCamel : Str → Str
  | [] => []
  | c :: rest => c :: spaceCamelTail rest

/-- descriptionFromMethod is the shallow embedding of the Go function of the same name
in pkg/flux/app.go: strip Handle and the first matching verb, insert spaces at
upper-case boundaries, then apply the Index/ById/create/update/delete special cases. -/
def descriptionFromMethod (controllerName methodName : Str) : Str :=
  let actionName := (stripVerb httpVerbs (goTrimPrefix methodName "Handle".data)).2
  let description := spaceCamel actionName
  if description = "Index".data then
    "List all ".data ++ lowerStr controllerName ++ "s".data
  else if description = "ById".data ∨ description = "By Id".data then
    "Get a specific ".data ++ lowerStr controllerName ++ " by ID".data
  else if goContains (lowerStr description) "create".data then
    "Create a new ".data ++ lowerStr controllerName
  else if goContains (lowerStr description) "update".data then
    "Update a ".data ++ lowerStr controllerName
  else if goContains (lowerStr description) "delete".data then
    "Delete a ".data ++ lowerStr controllerName
  else description

/-- RMRoute is one route table entry: HTTP method, path, handler label, description. -/
structure RMRoute where
  method : Str
  path : Str
  handlerName : Str
  description : Str
  deriving DecidableEq, Repr

/-- rkey is the collision key of an entry: its (method, path) pair. -/
def rkey (e : RMRoute) : Str × Str := (e.method, e.path)

/-- hasKey tests whether an entry with the given (method, path) key is in the table. -/
def hasKey (entries : List RMRoute) (k : Str × Str) : Bool :=
  entries.any (fun e => e.method == k.1 && e.path == k.2)

/-- Modelled from the spec: the RouteManager implementation behind Application.routes
(NewRouteManager, Add, All) is absent from the sources, only its callers appear; per
spec section 4.2, Add with a colliding (method, path) key overwrites the previous entry
and raises no error, and All enumerates in stable insertion order, so the table is a
list with key-overwrite insertion. -/
def rmAdd (entries : List RMRoute) (r : RMRoute) : List RMRoute :=
  if hasKey entries (rkey r) then
    entries.map (fun e => if e.method == r.method && e.path == r.path then r else e)
  else entries ++ [r]

/-- uniqKeys states that each (method, path) key maps to exactly one table entry. -/
def uniqKeys (entries : List RMRoute) : Prop := (entries.map rkey).Nodup

/-- GoController models the reflected view of a registered controller: its struct type
name and its method names in reflection order. -/
structure GoController where
  name : Str
  methods : List Str

/-- controllerRoutes models the route-deriving loop of Application.RegisterController:
the base path is "/" plus the lower-cased type name with a trailing Controller
stripped; each method named Handle... yields one entry via parseRouteFromMethodName,
labelled TypeName.MethodName and described by descriptionFromMethod. -/
def controllerRoutes (c : GoController) : List RMRoute :=
  (c.methods.filter (fun m => ("Handle".data).isPrefixOf m)).map (fun m =>
    { method := (parseRouteFromMethodName m
        ('/' :: lowerStr (goTrimSuffix c.name "Controller".data))).HTTPMethod
      path := (parseRouteFromMethodName m
        ('/' :: lowerStr (goTrimSuffix c.name "Controller".data))).Path
      handlerName := c.name ++ '.' :: m
      description := descriptionFromMethod (goTrimSuffix c.name "Controller".data) m })

/-- registerController models the effect of Application.RegisterController on the route
table: every derived route is added in order through the table's Add. -/
def registerController (entries : List RMRoute) (c : GoController) : List RMRoute :=
  (controllerRoutes c).foldl rmAdd entries

theorem hasKey_iff (entries : List RMRoute) (k : Str × Str) :
    hasKey entries k = true ↔ k ∈ entries.map rkey := by
  simp only [hasKey, List.any_eq_true, Bool.and_eq_true, beq_iff_eq, List.mem_map, rkey]
  constructor
  · rintro ⟨e, he, h1, h2⟩
    exact ⟨e, he, by rw [h1, h2]⟩
  · rintro ⟨e, he, h⟩
    exact ⟨e, he, congrArg Prod.fst h, congrArg Prod.snd h⟩

theorem rmAdd_keys (entries : List RMRoute) (r : RMRoute) :
    (rmAdd entries r).map rkey
      = if hasKey entries (rkey r) then entries.map rkey
        else entries.map rkey ++ [rkey r] := by
  unfold rmAdd
  by_cases h : hasKey entries (rkey r) = true
  · simp only [h, if_pos, List.map_map]
    apply List.map_congr_left
    intro e he
    by_cases hm : (e.method == r.method && e.path == r.path) = true
    · simp only [Function.comp, hm, if_pos]
      simp only [Bool.and_eq_true, beq_iff_eq] at hm
      simp [rkey, hm.1, hm.2]
    · simp [Function.comp, hm]
  · simp [h]

theorem rmAdd_length (entries : List RMRoute) (r : RMRoute) :
    (rmAdd entries r).length
      = if hasKey entries (rkey r) then entries.length else entries.length + 1 := by
  unfold rmAdd
  by_cases h : hasKey entries (rkey r) = true <;> simp [h]

theorem hasKey_rmAdd_mono (entries : List RMRoute) (r : RMRoute) (k : Str × Str)
    (h : hasKey entries k = true) : hasKey (rmAdd entries r) k = true := by
  rw [hasKey_iff] at h ⊢
  rw [rmAdd_keys]
  by_cases hr : hasKey entries (rkey r) = true
  · simpa [hr] using h
  · simp only [hr, if_neg, Bool.false_eq_true, not_false_iff, List.mem_append]
    exact Or.inl h

theorem hasKey_rmAdd_self (entries : List RMRoute) (r : RMRoute) :
    hasKey (rmAdd entries r) (rkey r) = true := by
  rw [hasKey_iff, rmAdd_keys]
  by_cases hr : hasKey entries (rkey r) = true
  · simpa [hr] using (hasKey_iff entries (rkey r)).mp hr
  · simp [hr]

theorem hasKey_foldl_mono (rs : List RMRoute) : ∀ (entries : List RMRoute) (k : Str × Str),
    hasKey entries k = true → hasKey (rs.foldl rmAdd entries) k = true := by
  induction rs with
  | nil => intro entries k h; exact h
  | cons r rest ih =>
      intro entries k h
      exact ih (rmAdd entries r) k (hasKey_rmAdd_mono entries r k h)

theorem hasKey_foldl_of_mem (rs : List RMRoute) : ∀ (entries : List RMRoute) (r : RMRoute),
    r ∈ rs → hasKey (rs.foldl rmAdd entries) (rkey r) = true := by
  induction rs with
  | nil => intro entries r h; cases h
  | cons s rest ih =>
      intro entries r h
      cases h with
      | head =>
          exact hasKey_foldl_mono rest (rmAdd entries s) (rkey s)
            (hasKey_rmAdd_self entries s)
      | tail _ hmem => exact ih (rmAdd entries s) r hmem

theorem foldl_length_of_allKeys (rs : List RMRoute) : ∀ entries : List RMRoute,
    (∀ r ∈ rs, hasKey entries (rkey r) = true) →
    (rs.foldl rmAdd entries).length = entries.length := by
  induction rs with
  | nil => intro entries _; rfl
  | cons r rest ih =>
      intro entries hall
      have h1 : hasKey entries (rkey r) = true := hall r (List.mem_cons_self r rest)
      have h2 : ∀ s ∈ rest, hasKey (rmAdd entries r) (rkey s) = true := fun s hs =>
        hasKey_rmAdd_mono entries r (rkey s) (hall s (List.mem_cons_of_mem r hs))
      calc (List.foldl rmAdd (rmAdd entries r) rest).length
          = (rmAdd entries r).length := ih (rmAdd entries r) h2
        _ = entries.length := by rw [rmAdd_length, if_pos h1]

theorem uniqKeys_rmAdd (entries : List RMRoute) (r : RMRoute)
    (h : uniqKeys entries) : uniqKeys (rmAdd entries r) := by
  unfold uniqKeys at h ⊢
  rw [rmAdd_keys]
  by_cases hr : hasKey entries (rkey r) = true
  · simpa [hr] using h
  · have hnot : rkey r ∉ entries.map rkey := fun hmem =>
      hr ((hasKey_iff entries (rkey r)).mpr hmem)
    simp [hr, List.nodup_append, h, hnot]

theorem uniqKeys_foldl (rs : List RMRoute) : ∀ entries : List RMRoute,
    uniqKeys entries → uniqKeys (rs.foldl rmAdd entries) := by
  induction rs with
  | nil => intro entries h; exact h
  | cons r rest ih => intro entries h; exact ih (rmAdd entries r) (uniqKeys_rmAdd entries r h)

/-- C4: registering the same controller twice leaves the route table size exactly as
after one registration — every derived (method, path) key is already present, so each
colliding Add overwrites instead of appending, without error — and keys stay unique:
each (method, path) key still maps to exactly one entry. -/
theorem registerController_idem :
    ∀ (entries : List RMRoute) (c : GoController), uniqKeys entries →
    (registerController (registerController entries c) c).length
        = (registerController entries c).length
    ∧ uniqKeys (registerController (registerController entries c) c) := by
  intro entries c h
  unfold registerController
  constructor
  · exact foldl_length_of_allKeys (controllerRoutes c) _
      (fun r hr => hasKey_foldl_of_mem (controllerRoutes c) entries r hr)
  · exact uniqKeys_foldl _ _ (uniqKeys_foldl _ _ h)

/-- helloController is the reflected view of the registered *HelloController of
src/testing/hello: flux.Controller is embedded, so the reflection method set holds, in
its sorted order, the promoted exported methods of *flux.Controller alongside the
handler HandleGetHello. -/
def helloController : GoController :=
  { name := "HelloController".data,
    methods := ["App".data, "GetRouteByName".data, "GetRoutes".data, "Group".data,
      "HandleGetHello".data, "Name".data, "RegisterRoute".data, "RegisterRoutes".data,
      "SetApplication".data, "SetName".data, "Use".data] }

/-- C4 witness: double registration of HelloController into the empty table. -/
theorem registerController_idem_witness :
    (registerController (registerController [] helloController) helloController).length
      = (registerController [] helloController).length :=
  (registerController_idem [] helloController (by simp [uniqKeys])).1

/-- C3: registering a controller named HelloController binds HandleGetHello at
(GET, /hello/hello), not at /hello: the derived route set contains exactly the
(GET, /hello/hello) key, so a GET request to /hello matches no conventionally bound
route. -/
theorem helloController_route :
    (controllerRoutes helloController).map rkey = [("GET".data, "/hello/hello".data)]
    ∧ parseRouteFromMethodName "HandleGetHello".data "/hello".data
        ≠ ⟨"GET".data, "/hello".data⟩ := by
  constructor
  · decide
  · decide


/-- getMethodAnns is the shallow embedding of getMethodAnnotations in
pkg/forge/openapi.go: collect, in order, every verb of Get, Post, Put, Delete, Patch
that prefixes the method name; the name is not stripped of its Handle prefix first. -/
def getMethodAnns (methodName : Str) : List Str :=
  (["Get".data, "Post".data, "Put".data, "Delete".data, "Patch".data]).filter
    (fun v => v.isPrefixOf methodName)

/-- firstNonEmptyUpper models the result loop of getHTTPMethodFromAnnotations: the
first collected verb whose upper-casing is non-empty is the HTTP method. -/
def firstNonEmptyUpper : List Str → Str
  | [] => []
  | a :: rest => if (upperStr a).isEmpty then firstNonEmptyUpper rest else upperStr a

/-- getHTTPMethodFromAnns embeds getHTTPMethodFromAnnotations: an unexported method
yields the empty string, otherwise the first annotation's upper-casing (empty when the
scan collected nothing). -/
def getHTTPMethodFromAnns (exported : Bool) (methodName : Str) : Str :=
  if exported then firstNonEmptyUpper (getMethodAnns methodName) else []

/-- ptrName models the controllerType.Name() call of GenerateOpenAPI: controllers are
registered as pointers and reflect.TypeOf yields the pointer type, whose Name() is the
empty string for every pointer type (only Elem().Name() would give the struct name). -/
def ptrName (_ : GoController) : Str := []

/-- openAPIOperations models the controller and method loops of
Application.GenerateOpenAPI: one (HTTP method, path) operation is emitted per reflected
(hence exported) method whose annotation-derived HTTP method is non-empty, under
/<lower controllerType.Name()>/<lower method name> — with the pointer type's empty
name the paths degenerate to //<lower method name>. -/
def openAPIOperations (controllers : List GoController) : List (Str × Str) :=
  (controllers.map (fun c =>
    (c.methods.filter (fun m => !(getHTTPMethodFromAnns true m).isEmpty)).map (fun m =>
      (getHTTPMethodFromAnns true m,
       '/' :: lowerStr (ptrName c) ++ '/' :: lowerStr m)))).flatten

theorem getMethodAnns_handle (rest : Str) : getMethodAnns ("Handle".data ++ rest) = [] := by
  have hG : ("Get".data).isPrefixOf ("Handle".data ++ rest) = false := rfl
  have hPo : ("Post".data).isPrefixOf ("Handle".data ++ rest) = false := rfl
  have hPu : ("Put".data).isPrefixOf ("Handle".data ++ rest) = false := rfl
  have hD : ("Delete".data).isPrefixOf ("Handle".data ++ rest) = false := rfl
  have hPa : ("Patch".data).isPrefixOf ("Handle".data ++ rest) = false := rfl
  simp [getMethodAnns, hG, hPo, hPu, hD, hPa]

/-- C7: the OpenAPI generator never emits an operation for a bound handler: every
Handle-prefixed method name matches no verb annotation (the scan tests the un-stripped
name against Get/Post/Put/Delete/Patch), so its derived HTTP method is empty and the
generator skips it. Registering HelloController binds exactly the route
(GET, /hello/hello), while the generated document holds only two spurious GET
operations for the promoted accessors GetRouteByName and GetRoutes of the embedded
Controller, under paths built from the pointer type's empty name — and none for the
bound handler. -/
theorem openapi_skips_handlers :
    (∀ rest : Str, getMethodAnns ("Handle".data ++ rest) = [])
    ∧ (∀ (exported : Bool) (rest : Str),
        getHTTPMethodFromAnns exported ("Handle".data ++ rest) = [])
    ∧ openAPIOperations [helloController]
        = [("GET".data, "//getroutebyname".data), ("GET".data, "//getroutes".data)]
    ∧ (registerController [] helloController).map rkey
        = [("GET".data, "/hello/hello".data)] := by
  refine ⟨getMethodAnns_handle, ?_, by decide, by decide⟩
  intro exported rest
  cases exported with
  | false => rfl
  | true => simp [getHTTPMethodFromAnns, getMethodAnns_handle, firstNonEmptyUpper]


end Flux
